import Mathlib

/-!
Verification of the process-control and breakpoint engine of the `deet`
debugger (src/proj-1/deet).  Child memory is modelled as a byte map
`Nat → Nat`; the ptrace word primitives operate on 8-byte little-endian
words exactly as the source does.  OS-level nondeterminism (the outcome of
`ptrace::cont` / `ptrace::step`) is supplied as an explicit `Event` input.
-/

namespace Deet
/-- Byte-addressed memory of the traced child: address to byte value.
Well-formed memories keep every byte below 256. -/
def Mem : Type := Nat → Nat

/-- The 64-bit little-endian word assembled from eight bytes. -/
def wordOfBytes (b : Nat → Nat) : Nat :=
  b 0 + 2 ^ 8 * b 1 + 2 ^ 16 * b 2 + 2 ^ 24 * b 3 +
    2 ^ 32 * b 4 + 2 ^ 40 * b 5 + 2 ^ 48 * b 6 + 2 ^ 56 * b 7

/-- Mirrors `align_addr_to_word` in src/proj-1/deet/src/inferior.rs:
`addr & (-(size_of::<usize>() as isize) as usize)`; on a 64-bit target the
mask is `2 ^ 64 - 8`. -/
def align_addr_to_word (addr : Nat) : Nat :=
  addr &&& (2 ^ 64 - 8)

/-- A `ptrace::read` of the word containing eight consecutive bytes starting
at `a` (x86-64 is little-endian). -/
def readWord (m : Mem) (a : Nat) : Nat :=
  wordOfBytes (fun k => m (a + k))

/-- A `ptrace::write` of word `w` at address `a`: the eight bytes of the
little-endian representation of `w` replace the bytes at `a .. a+7`. -/
def ptraceWriteWord (m : Mem) (a w : Nat) : Mem :=
  fun x => if a ≤ x ∧ x < a + 8 then w / 2 ^ (8 * (x - a)) % 256 else m x

/-- Mirrors `Inferior::write_byte` (src/proj-1/deet/src/inferior.rs lines
133-146): read the containing word, extract the displaced byte, mask the
target byte out (`word & !(0xff << 8 * byte_offset)`, where `!` on `u64` is
xor with `2 ^ 64 - 1`), or the new value in, and write the word back.
Returns the original byte together with the updated memory.  The model
memory is total, so the `ptrace` error path is never taken. -/
def write_byte (m : Mem) (addr val : Nat) : Nat × Mem :=
  let aligned_addr := align_addr_to_word addr
  let byte_offset := addr - aligned_addr
  let word := readWord m aligned_addr
  let orig_byte := (word >>> (8 * byte_offset)) &&& 0xff
  let masked_word := word &&& ((2 ^ 64 - 1) ^^^ (0xff <<< (8 * byte_offset)))
  let updated_word := masked_word ||| (val <<< (8 * byte_offset))
  (orig_byte, ptraceWriteWord m aligned_addr updated_word)

/-- Modelled from the spec: the repository has no `read_byte` under src/,
but the spec's Inferior interface lists `read_byte(address) -> u8`, a raw
single-byte peek over the word-aligned access primitive.  It reads the
containing word and extracts the target byte. -/
def read_byte (m : Mem) (addr : Nat) : Nat :=
  (readWord m (align_addr_to_word addr) >>> (8 * (addr - align_addr_to_word addr))) &&& 0xff

/-- Mirrors `Status` in src/proj-1/deet/src/inferior.rs.  Signals are
modelled by their number; `SIGTRAP` is 5. -/
inductive Status where
  | stopped (sig : Nat) (rip : Nat)
  | exited (code : Int)
  | signaled (sig : Nat)

/-- The trap-class signal number (`nix::sys::signal::Signal::SIGTRAP`). -/
def SIGTRAP : Nat := 5

/-- A source line as returned by the symbol-resolution collaborator
(`DwarfData::get_line_from_addr`); only its number is inspected by the
engine. -/
structure Line where
  number : Nat
deriving DecidableEq

instance : ToString Line where
  toString l := toString l.number

/-- One outcome of an OS-level `ptrace::cont` / `ptrace::step` call, the
nondeterministic environment input of the model: the child stops with a
signal at an instruction pointer, exits, is terminated by a signal, or the
ptrace call itself errors. -/
inductive Event where
  | stops (sig : Nat) (rip : Nat)
  | exits (code : Int)
  | killedBy (sig : Nat)
  | errs

/-- Mirrors `Inferior` in src/proj-1/deet/src/inferior.rs.  The child's
register file is reduced to the two registers the engine reads (`rip`,
`rbp`); `alive` models the `running()` probe.  The traced code bytes are
assumed not to be modified by the child's own execution, so resuming only
changes the registers. -/
structure Inferior where
  mem : Mem
  rip : Nat
  rbp : Nat
  alive : Bool

/-- Shared outcome of `Inferior::cont` and `Inferior::step`: both resume the
child and `wait` for the next status, which the environment supplies as an
`Event`. -/
def Inferior.applyEvent (inf : Inferior) (e : Event) : Except Unit (Status × Inferior) :=
  match e with
  | .stops sig r => .ok (.stopped sig r, { inf with rip := r })
  | .exits c => .ok (.exited c, { inf with alive := false })
  | .killedBy s => .ok (.signaled s, { inf with alive := false })
  | .errs => .error ()

/-- Mirrors `Inferior::cont` (ptrace cont + wait). -/
def Inferior.cont (inf : Inferior) (e : Event) : Except Unit (Status × Inferior) :=
  inf.applyEvent e

/-- Mirrors `Inferior::step` (ptrace single-step + wait). -/
def Inferior.step (inf : Inferior) (e : Event) : Except Unit (Status × Inferior) :=
  inf.applyEvent e

/-- Mirrors `Inferior::step_back_rip`: decrement `%rip` by one. -/
def Inferior.step_back_rip (inf : Inferior) : Inferior :=
  { inf with rip := inf.rip - 1 }

/-- Modelled from the spec: `Inferior::get_rip` is called by the `Next`
command handler (src/proj-1/deet/src/debugger.rs line 214) but its body is
not under src/; the spec's `instruction_pointer() -> usize | MemoryError`
operation is a register read that fails on a dead (already reaped) process
and returns `%rip` on a live one. -/
def Inferior.get_rip (inf : Inferior) : Except Unit Nat :=
  if inf.alive then .ok inf.rip else .error ()

/-- Mirrors `Breakpoint` in src/proj-1/deet/src/debugger.rs. -/
structure Breakpoint where
  addr : Nat
  orig_byte : Nat
deriving DecidableEq

/-- The Breakpoint Table: `HashMap<usize, Breakpoint>` modelled as an
association list with HashMap key semantics (insert replaces the entry of
an existing key). -/
abbrev BpTable := List (Nat × Breakpoint)

def BpTable.get? : BpTable → Nat → Option Breakpoint
  | [], _ => none
  | (k, b) :: t, a => if k = a then some b else BpTable.get? t a

def BpTable.insert : BpTable → Nat → Breakpoint → BpTable
  | [], a, b => [(a, b)]
  | (k, c) :: t, a, b =>
    if k = a then (a, b) :: t else (k, c) :: BpTable.insert t a b

def BpTable.len (t : BpTable) : Nat :=
  List.length t

/-- The Debugger Session state the engine manipulates: the optional
Inferior, the Breakpoint Table and the `inferior_stopped_by_bp` flag
(src/proj-1/deet/src/debugger.rs lines 15-23; the REPL-only fields are
out of scope). -/
structure Debugger where
  inferior : Option Inferior
  breakpoints : BpTable
  inferior_stopped_by_bp : Bool

/-- Mirrors `Debugger::reset_bp` (debugger.rs lines 137-144): if `rip - 1`
is a declared breakpoint, write the trap byte `0xcc` back at the record's
address and capture the displaced byte into the record.  The source unwraps
the Inferior; every call site guarantees it is present, and the model
leaves the state unchanged otherwise. -/
def Debugger.reset_bp (d : Debugger) (rip : Nat) : Debugger :=
  match d.breakpoints.get? (rip - 1), d.inferior with
  | some bp, some inf =>
    let r := write_byte inf.mem bp.addr 0xcc
    { d with
      breakpoints := d.breakpoints.insert (rip - 1) { bp with orig_byte := r.1 },
      inferior := some { inf with mem := r.2 } }
  | _, _ => d

/-- Mirrors `Debugger::restore_bp` (debugger.rs lines 146-157): if `rip - 1`
is a declared breakpoint, write the stored original byte back at the
record's address, roll `%rip` back by one, and report success; otherwise
report `none` and change nothing. -/
def Debugger.restore_bp (d : Debugger) (rip : Nat) : Option Unit × Debugger :=
  match d.breakpoints.get? (rip - 1), d.inferior with
  | some bp, some inf =>
    let r := write_byte inf.mem bp.addr bp.orig_byte
    (some (), { d with inferior := some (Inferior.step_back_rip { inf with mem := r.2 }) })
  | _, _ => (none, d)

/-- The resume half of `Debugger::cont` (debugger.rs lines 102-134): resume
the child, then on a trap-class stop run `restore_bp` and set the
`inferior_stopped_by_bp` flag. -/
def Debugger.contResume (d : Debugger) (getLine : Nat → Option Line)
    (evCont : Event) : Debugger × List String :=
  match d.inferior with
  | none => (d, [])
  | some inf =>
    match inf.cont evCont with
    | .error _ => (d, ["Error continuing subprocess"])
    | .ok (.exited code, _) =>
      ({ d with inferior := none, inferior_stopped_by_bp := false },
        ["Child exited (status " ++ toString code ++ ")"])
    | .ok (.signaled sig, _) =>
      ({ d with inferior := none, inferior_stopped_by_bp := false },
        ["Child signaled (signal " ++ toString sig ++ ")"])
    | .ok (.stopped sig rip, inf1) =>
      let m1 := ["Child stopped (signal " ++ toString sig ++ ")"]
      let m2 := match getLine rip with
        | some line => m1 ++ ["Stopped at " ++ toString line]
        | none => m1
      let d1 := { d with inferior := some inf1 }
      if sig = SIGTRAP then
        let r := d1.restore_bp rip
        ({ r.2 with inferior_stopped_by_bp := true }, m2)
      else
        (d1, m2)

/-- Mirrors `Debugger::cont` (debugger.rs lines 57-135).  `evStep` is the
outcome of the single step issued when `inferior_stopped_by_bp` is set;
`evCont` is the outcome of the subsequent resume. -/
def Debugger.cont (d : Debugger) (getLine : Nat → Option Line)
    (evStep evCont : Event) : Debugger × List String :=
  match d.inferior with
  | none => (d, ["No running subprocess"])
  | some inf0 =>
    if inf0.alive = false then
      (d, ["No running subprocess"])
    else if d.inferior_stopped_by_bp then
      match inf0.step evStep with
      | .error _ =>
        ({ d with inferior := none, inferior_stopped_by_bp := false },
          ["Error stepping inferior"])
      | .ok (.exited code, _) =>
        ({ d with inferior := none },
          ["Child exited (status " ++ toString code ++ ")"])
      | .ok (.signaled sig, _) =>
        ({ d with inferior := none },
          ["Child signaled (signal " ++ toString sig ++ ")"])
      | .ok (.stopped sig rip, inf1) =>
        let d1 := { d with inferior := some inf1 }
        let d2 :=
          if sig = SIGTRAP then
            { d1.reset_bp rip with inferior_stopped_by_bp := false }
          else
            d1
        Debugger.contResume d2 getLine evCont
    else
      Debugger.contResume d getLine evCont

/-- The breakpoint-application loop of `Inferior::new` (inferior.rs lines
59-67): for every table entry, write the trap byte `0xcc` at the entry's
key address and capture the displaced byte into the record. -/
def applyAll : BpTable → Mem → BpTable × Mem
  | [], m => ([], m)
  | (k, bp) :: t, m =>
    let r := write_byte m k 0xcc
    let rest := applyAll t r.2
    ((k, { bp with orig_byte := r.1 }) :: rest.1, rest.2)

/-- Mirrors `Inferior::new` (inferior.rs lines 45-74).  `spawn` is the
environment's answer to spawning the target under trace: `none` collapses a
failed `spawn` and a missing initial trace-stop (both return `None` in the
source); `some (m, rip)` is the freshly loaded child's memory and entry
instruction pointer.  On success all declared breakpoints are patched.  The
model's `write_byte` always succeeds, so the patch-failure early return is
never taken. -/
def Inferior.new (spawn : Option (Mem × Nat)) (bps : BpTable) :
    Option (Inferior × BpTable) :=
  match spawn with
  | none => none
  | some (m, r) =>
    let p := applyAll bps m
    some ({ mem := p.2, rip := r, rbp := 0, alive := true }, p.1)

/-- Mirrors the `Run` arm of `Debugger::run` (debugger.rs lines 171-186):
kill a live prior Inferior, spawn, patch all breakpoints, and on success
immediately run the Continue protocol.  On spawn failure the session keeps
whatever `inferior` field it had (the source only prints an error). -/
def Debugger.runCmd (d : Debugger) (spawn : Option (Mem × Nat))
    (getLine : Nat → Option Line) (evStep evCont : Event) :
    Debugger × List String :=
  let d0 :=
    match d.inferior with
    | some i => if i.alive then { d with inferior := some { i with alive := false } } else d
    | none => d
  match Inferior.new spawn d0.breakpoints with
  | some (inf, bps) =>
    Debugger.cont { d0 with inferior := some inf, breakpoints := bps } getLine evStep evCont
  | none => (d0, ["Error starting subprocess"])

/-- The frame-walking loop of `Inferior::print_backtrace` (inferior.rs lines
122-129), with explicit fuel standing in for the unbounded source loop:
resolve `rip` to a function name and line (either failing is the source's
`EINVAL` error), emit the frame, stop after `main`, else follow the frame
pointer chain: the saved return address lives at `rbp + 8` and the caller
frame pointer at `rbp`.  Returns `none` only when the fuel runs out. -/
def unwindLoop (getFunc : Nat → Option String) (getLine : Nat → Option Line)
    (m : Mem) : Nat → Nat → Nat → Option (Except Unit (List (String × Line)))
  | 0, _, _ => none
  | fuel + 1, rip, rbp =>
    match getFunc rip, getLine rip with
    | some f, some l =>
      if f = "main" then
        some (.ok [(f, l)])
      else
        match unwindLoop getFunc getLine m fuel (readWord m (rbp + 8)) (readWord m rbp) with
        | some (.ok frames) => some (.ok ((f, l) :: frames))
        | some (.error e) => some (.error e)
        | none => none
    | _, _ => some (.error ())

/-- Mirrors the `Backtrace` arm of `Debugger::run` (debugger.rs lines
197-206): it only checks that an Inferior is *present*; with none it does
nothing at all (no message).  With a dead Inferior the source still calls
`print_backtrace`, whose first `ptrace::getregs` fails, producing the error
report; on a live Inferior the resolved frames are printed. -/
def Debugger.backtraceCmd (d : Debugger) (getFunc : Nat → Option String)
    (getLine : Nat → Option Line) (fuel : Nat) : Debugger × List String :=
  match d.inferior with
  | none => (d, [])
  | some inf =>
    if inf.alive = false then
      (d, ["Error printing backtrace"])
    else
      match unwindLoop getFunc getLine inf.mem fuel inf.rip inf.rbp with
      | some (.ok frames) =>
        (d, frames.map (fun p => p.1 ++ " (" ++ toString p.2 ++ ")"))
      | some (.error _) => (d, ["Error printing backtrace"])
      | none => (d, [])

/-- One iteration of the `Next` arm loop of `Debugger::run` (debugger.rs
lines 222-272).  Returns the new state, the printed lines, and whether the
loop breaks. -/
def Debugger.nextIter (d : Debugger) (getLine : Nat → Option Line)
    (oldLine : Nat) (ev : Event) : Debugger × List String × Bool :=
  match d.inferior with
  | none => (d, [], true)
  | some inf =>
    match inf.step ev with
    | .error _ => (d, ["Error next command"], false)
    | .ok (.exited code, _) =>
      ({ d with inferior := none },
        ["Child exited (status " ++ toString code ++ ")"], true)
    | .ok (.signaled sig, _) =>
      ({ d with inferior := none },
        ["Child signaled (signal " ++ toString sig ++ ")"], true)
    | .ok (.stopped sig rip, inf1) =>
      let d1 := { d with inferior := some inf1 }
      let d2 :=
        if d1.inferior_stopped_by_bp then
          { d1.reset_bp rip with inferior_stopped_by_bp := false }
        else
          d1
      if sig = SIGTRAP then
        let r := d2.restore_bp rip
        if r.1.isSome then
          ({ r.2 with inferior_stopped_by_bp := true },
            ["stopped at a breakpoint"], true)
        else
          match getLine rip with
          | some line =>
            if line.number = oldLine + 1 then (d2, [], true) else (d2, [], false)
          | none => (d2, [], false)
      else
        (d2, ["Child stopped (signal " ++ toString sig ++ ")"], true)

/-- The `Next` arm loop, fed by the finite list of step outcomes the
environment will produce. -/
def Debugger.nextLoop (d : Debugger) (getLine : Nat → Option Line)
    (oldLine : Nat) : List Event → Debugger × List String
  | [] => (d, [])
  | e :: rest =>
    let r := d.nextIter getLine oldLine e
    if r.2.2 then
      (r.1, r.2.1)
    else
      let rr := Debugger.nextLoop r.1 getLine oldLine rest
      (rr.1, r.2.1 ++ rr.2)

/-- Mirrors the `Next` arm of `Debugger::run` (debugger.rs lines 210-276):
only the *presence* of an Inferior is checked; the handler then calls
`inferior.get_rip().unwrap()`, and on a dead process the failed register
read makes that unwrap panic — modelled as the `none` result.  With no
Inferior present the source prints `No running subprocess!`. -/
def Debugger.nextCmd (d : Debugger) (getLine : Nat → Option Line)
    (evs : List Event) : Option (Debugger × List String) :=
  match d.inferior with
  | none => some (d, ["No running subprocess!"])
  | some inf =>
    match inf.get_rip with
    | .error _ => none
    | .ok rip =>
      match getLine rip with
      | none => some (d, ["Error get current line number"])
      | some l => some (Debugger.nextLoop d getLine l.number evs)

/-- Value of a hexadecimal digit character, as accepted by
`usize::from_str_radix(_, 16)`. -/
def hexDigitVal? (c : Char) : Option Nat :=
  if '0' ≤ c ∧ c ≤ '9' then some (c.toNat - '0'.toNat)
  else if 'a' ≤ c ∧ c ≤ 'f' then some (c.toNat - 'a'.toNat + 10)
  else if 'A' ≤ c ∧ c ≤ 'F' then some (c.toNat - 'A'.toNat + 10)
  else none

/-- Value of a decimal digit character. -/
def decDigitVal? (c : Char) : Option Nat :=
  if '0' ≤ c ∧ c ≤ '9' then some (c.toNat - '0'.toNat) else none

/-- Accumulate digit values left to right; an empty digit string or any
non-digit character is a parse failure. -/
def digitsVal (base : Nat) (dv : Char → Option Nat) (cs : List Char) : Option Nat :=
  if cs.isEmpty then none
  else
    cs.foldl (fun acc c =>
      match acc, dv c with
      | some a, some dval => some (a * base + dval)
      | _, _ => none) (some 0)

/-- Rust's `usize::from_str_radix` / `str::parse::<usize>`: an optional
leading plus sign, one or more digits, error on a value outside `usize`
range. -/
def fromStrRadix (base : Nat) (dv : Char → Option Nat) (cs : List Char) : Option Nat :=
  let cs2 := match cs with
    | '+' :: rest => rest
    | _ => cs
  match digitsVal base dv cs2 with
  | some v => if v < 2 ^ 64 then some v else none
  | none => none

/-- Mirrors `Debugger::parse_address` (debugger.rs lines 159-166): strip a
case-insensitive `0x` prefix, then parse the rest as hexadecimal. -/
def parse_address (addr : String) : Option Nat :=
  let cs :=
    if ['0', 'x'].isPrefixOf (addr.data.map Char.toLower) then
      addr.data.drop 2
    else
      addr.data
  fromStrRadix 16 hexDigitVal? cs

/-- Rust's `token.parse::<usize>()` used on the breakpoint token. -/
def parse_usize (token : String) : Option Nat :=
  fromStrRadix 10 decDigitVal? token.data

/-- The target-resolution dispatch at the top of `Debugger::set_bp`
(debugger.rs lines 324-334): a token starting with `*` is a raw hex
address, a decimal number is a source line resolved by the collaborator,
anything else is a function name resolved by the collaborator. -/
def resolve_bp_token (token : String) (getAddrForLine : Nat → Option Nat)
    (getAddrForFunction : String → Option Nat) : Option Nat :=
  match token.data with
  | '*' :: rest => parse_address (String.mk rest)
  | _ =>
    match parse_usize token with
    | some n => getAddrForLine n
    | none => getAddrForFunction token

/-- Mirrors `Debugger::set_bp` (debugger.rs lines 322-359): resolve the
token (reporting `Invalid breakpoint!` and changing nothing on failure),
patch the live Inferior if one is present, and insert the record keyed by
the resolved address.  The source prints the address in hex; the message
text is not load-bearing here. -/
def Debugger.set_bp (d : Debugger) (token : String)
    (getAddrForLine : Nat → Option Nat)
    (getAddrForFunction : String → Option Nat) : Debugger × List String :=
  match resolve_bp_token token getAddrForLine getAddrForFunction with
  | none => (d, ["Invalid breakpoint!"])
  | some addr =>
    match d.inferior with
    | some inf =>
      let r := write_byte inf.mem addr 0xcc
      ({ d with
          inferior := some { inf with mem := r.2 },
          breakpoints := d.breakpoints.insert addr { addr := addr, orig_byte := r.1 } },
        ["Set breakpoint " ++ toString d.breakpoints.len ++ " at " ++ toString addr])
    | none =>
      ({ d with
          breakpoints := d.breakpoints.insert addr { addr := addr, orig_byte := 0 } },
        ["Set breakpoint " ++ toString d.breakpoints.len ++ " at " ++ toString addr])

/-- Well-formedness of the Breakpoint Table as maintained by `set_bp` and
`Inferior::new`: every record's `addr` field equals its key, keys are valid
addresses, and keys are unique. -/
def wfTable (t : BpTable) : Prop :=
  (∀ p ∈ t, p.2.addr = p.1 ∧ p.1 < 2 ^ 64) ∧ (t.map Prod.fst).Nodup

/-- The abstract frame chain walked by `print_backtrace`: starting from the
current `%rip` and `%rbp`, the next frame's return address is the word at
`rbp + 8` and the next frame pointer is the word at `rbp`. -/
def frameChain (m : Mem) (rip rbp : Nat) : Nat → Nat × Nat
  | 0 => (rip, rbp)
  | n + 1 =>
    let p := frameChain m rip rbp n
    (readWord m (p.2 + 8), readWord m p.2)

/-- All-zero child memory, used for concrete scenarios. -/
def memZero : Mem := fun _ => 0

/-- Child memory holding byte `144` (a one-byte `nop`-like original
instruction byte) everywhere, used for concrete scenarios. -/
def mem144 : Mem := fun _ => 144

/-- A fresh session: no Inferior, empty Breakpoint Table. -/
def dEmpty : Debugger :=
  { inferior := none, breakpoints := [], inferior_stopped_by_bp := false }

/-- A session holding a dead Inferior (child already exited). -/
def dDead : Debugger :=
  { inferior := some { mem := memZero, rip := 0, rbp := 0, alive := false },
    breakpoints := [], inferior_stopped_by_bp := false }

/-- Concrete scenario for the rearm protocol: a breakpoint at `4096` whose
original byte `144` has just been restored, the child sitting at the
breakpoint with the step-over pending (`inferior_stopped_by_bp` set). -/
def dHalted : Debugger :=
  { inferior := some { mem := mem144, rip := 4096, rbp := 0, alive := true },
    breakpoints := [(4096, { addr := 4096, orig_byte := 144 })],
    inferior_stopped_by_bp := true }

/-- Concrete scenario for the Continue protocol: a live child, one declared
breakpoint at `4096`, no step-over pending. -/
def dRunning : Debugger :=
  { inferior := some { mem := mem144, rip := 300, rbp := 0, alive := true },
    breakpoints := [(4096, { addr := 4096, orig_byte := 144 })],
    inferior_stopped_by_bp := false }

/-- Concrete scenario for `run`: a fresh session that has declared one
breakpoint at `4096` before any child exists. -/
def dDeclared : Debugger :=
  { inferior := none,
    breakpoints := [(4096, { addr := 4096, orig_byte := 0 })],
    inferior_stopped_by_bp := false }

/-- A session holding a live Inferior with no declared breakpoints, about
to issue a `run` whose spawn fails. -/
def dLive : Debugger :=
  { inferior := some { mem := memZero, rip := 0, rbp := 0, alive := true },
    breakpoints := [], inferior_stopped_by_bp := false }

/-- Concrete scenario for the `Next` loop: a live child and no declared
breakpoints. -/
def dStepping : Debugger :=
  { inferior := some { mem := memZero, rip := 500, rbp := 0, alive := true },
    breakpoints := [], inferior_stopped_by_bp := false }

theorem wordOfBytes_lt (b : Nat → Nat) (hb : ∀ k, k < 8 → b k < 256) :
    wordOfBytes b < 2 ^ 64 := by
  have h0 := hb 0 (by omega)
  have h1 := hb 1 (by omega)
  have h2 := hb 2 (by omega)
  have h3 := hb 3 (by omega)
  have h4 := hb 4 (by omega)
  have h5 := hb 5 (by omega)
  have h6 := hb 6 (by omega)
  have h7 := hb 7 (by omega)
  simp only [wordOfBytes]
  norm_num
  omega

theorem wordOfBytes_byte (b : Nat → Nat) (hb : ∀ k, k < 8 → b k < 256)
    (o : Nat) (ho : o < 8) :
    wordOfBytes b / 2 ^ (8 * o) % 256 = b o := by
  have h0 := hb 0 (by omega)
  have h1 := hb 1 (by omega)
  have h2 := hb 2 (by omega)
  have h3 := hb 3 (by omega)
  have h4 := hb 4 (by omega)
  have h5 := hb 5 (by omega)
  have h6 := hb 6 (by omega)
  have h7 := hb 7 (by omega)
  interval_cases o <;> (simp only [wordOfBytes]; norm_num; omega)

theorem mod_256_div_mod_two (x r : Nat) (hr : r < 8) :
    x % 256 / 2 ^ r % 2 = x / 2 ^ r % 2 := by
  interval_cases r <;> omega

theorem testBit_wordOfBytes (b : Nat → Nat) (hb : ∀ k, k < 8 → b k < 256)
    (j : Nat) :
    (wordOfBytes b).testBit j =
      (decide (j < 64) && (b (j / 8)).testBit (j % 8)) := by
  rcases lt_or_ge j 64 with hj | hj
  · have hq : j / 8 < 8 := by omega
    rw [Nat.testBit_to_div_mod, Nat.testBit_to_div_mod]
    have hpow : (2 : Nat) ^ j = 2 ^ (8 * (j / 8)) * 2 ^ (j % 8) := by
      rw [← pow_add]
      congr 1
      omega
    rw [hpow, ← Nat.div_div_eq_div_mul,
      ← mod_256_div_mod_two (wordOfBytes b / 2 ^ (8 * (j / 8))) (j % 8) (by omega),
      wordOfBytes_byte b hb (j / 8) hq]
    simp [hj]
  · have hlt : wordOfBytes b < 2 ^ j :=
      lt_of_lt_of_le (wordOfBytes_lt b hb) (Nat.pow_le_pow_right (by omega) hj)
    simp [Nat.testBit_lt_two_pow hlt, Nat.not_lt.mpr hj]

theorem testBit_255 (i : Nat) : (255 : Nat).testBit i = decide (i < 8) := by
  have h := Nat.testBit_two_pow_sub_one 8 i
  norm_num at h
  exact h

/-- Updating byte `o` of an eight-byte word via the mask-and-or sequence that
`Inferior::write_byte` performs on the containing word. -/
theorem word_update (b : Nat → Nat) (hb : ∀ k, k < 8 → b k < 256)
    (o val : Nat) (ho : o < 8) (hv : val < 256) :
    (wordOfBytes b &&& ((2 ^ 64 - 1) ^^^ (0xff <<< (8 * o)))) ||| (val <<< (8 * o))
      = wordOfBytes (fun k => if k = o then val else b k) := by
  have hb2 : ∀ k, k < 8 → (fun k => if k = o then val else b k) k < 256 := by
    intro k hk
    by_cases h : k = o <;> simp [h, hv, hb k hk]
  apply Nat.eq_of_testBit_eq
  intro j
  rw [Nat.testBit_or, Nat.testBit_and, Nat.testBit_xor, Nat.testBit_shiftLeft,
    Nat.testBit_shiftLeft, Nat.testBit_two_pow_sub_one,
    testBit_wordOfBytes b hb, testBit_wordOfBytes _ hb2, testBit_255]
  by_cases h64 : j < 64
  · by_cases heq : j / 8 = o
    · have h1 : 8 * o ≤ j := by omega
      have h2 : j - 8 * o < 8 := by omega
      have h3 : j - 8 * o = j % 8 := by omega
      have h4 : j % 8 < 8 := by omega
      simp [h64, heq, h1, h2, h3, h4]
    · by_cases hle : 8 * o ≤ j
      · have h2 : ¬ (j - 8 * o < 8) := by omega
        have h3 : val.testBit (j - 8 * o) = false := by
          apply Nat.testBit_lt_two_pow
          calc val < 2 ^ 8 := hv
          _ ≤ 2 ^ (j - 8 * o) := Nat.pow_le_pow_right (by omega) (by omega)
        simp [h64, heq, hle, h2, h3]
      · simp [h64, heq, hle]
  · have h1 : 8 * o ≤ j := by omega
    have h3 : val.testBit (j - 8 * o) = false := by
      apply Nat.testBit_lt_two_pow
      calc val < 2 ^ 8 := hv
      _ ≤ 2 ^ (j - 8 * o) := Nat.pow_le_pow_right (by omega) (by omega)
    simp [h64, h1, h3]

theorem align_addr_to_word_eq (addr : Nat) (ha : addr < 2 ^ 64) :
    align_addr_to_word addr = addr - addr % 8 := by
  have hmask : (2 : Nat) ^ 64 - 8 = 2 ^ 3 * (2 ^ 61 - 1) := by norm_num
  have hrhs : addr - addr % 8 = 2 ^ 3 * (addr / 2 ^ 3) := by omega
  rw [align_addr_to_word, hmask, hrhs]
  apply Nat.eq_of_testBit_eq
  intro j
  rw [Nat.testBit_and, Nat.testBit_mul_pow_two, Nat.testBit_mul_pow_two,
    Nat.testBit_two_pow_sub_one, ← Nat.shiftRight_eq_div_pow,
    Nat.testBit_shiftRight]
  by_cases h3 : 3 ≤ j
  · by_cases h64 : j < 64
    · have hj : 3 + (j - 3) = j := by omega
      simp [h3, h64, hj, Nat.sub_lt_iff_lt_add h3]
    · have hbit : addr.testBit j = false := by
        apply Nat.testBit_lt_two_pow
        exact lt_of_lt_of_le ha (Nat.pow_le_pow_right (by omega) (by omega))
      have hj : 3 + (j - 3) = j := by omega
      simp [h3, hj, hbit]
  · simp [h3]

theorem byteExtract_eq (w s : Nat) : (w >>> s) &&& 0xff = w / 2 ^ s % 256 := by
  have h255 : (0xff : Nat) = 2 ^ 8 - 1 := by norm_num
  rw [h255, Nat.and_pow_two_sub_one_eq_mod, Nat.shiftRight_eq_div_pow]

/-- Full functional behaviour of `write_byte` on a well-formed memory:
the returned value is the byte previously stored at `addr`, and the new
memory agrees with the old one everywhere except at `addr`, which now
holds `val`. -/
theorem write_byte_spec (m : Mem) (addr val : Nat) (hm : ∀ x, m x < 256)
    (ha : addr < 2 ^ 64) (hv : val < 256) :
    (write_byte m addr val).1 = m addr ∧
      (∀ x, (write_byte m addr val).2 x = if x = addr then val else m x) := by
  have halign := align_addr_to_word_eq addr ha
  set A := align_addr_to_word addr with hA
  have hA8 : A = addr - addr % 8 := halign
  have ho8 : addr - A = addr % 8 := by omega
  have ho : addr - A < 8 := by omega
  have hAaddr : A + (addr - A) = addr := by omega
  have hb : ∀ k, k < 8 → (fun k => m (A + k)) k < 256 := fun k _ => hm (A + k)
  have horig : (write_byte m addr val).1 = m addr := by
    show (readWord m A >>> (8 * (addr - A))) &&& 0xff = m addr
    rw [byteExtract_eq, readWord, wordOfBytes_byte _ hb (addr - A) ho]
    simp only [hAaddr]
  refine ⟨horig, ?_⟩
  intro x
  show ptraceWriteWord m A
      ((readWord m A &&& ((2 ^ 64 - 1) ^^^ (0xff <<< (8 * (addr - A))))) |||
        (val <<< (8 * (addr - A)))) x = _
  rw [readWord, word_update _ hb _ val ho hv]
  set c := fun k => if k = addr - A then val else m (A + k) with hc
  have hcb : ∀ k, k < 8 → c k < 256 := by
    intro k hk
    by_cases h : k = addr - A <;> simp [hc, h, hv, hm (A + k)]
  rw [ptraceWriteWord]
  by_cases hx : A ≤ x ∧ x < A + 8
  · simp only [hx, if_true]
    rw [wordOfBytes_byte c hcb (x - A) (by omega)]
    by_cases hxa : x = addr
    · have : x - A = addr - A := by omega
      simp [hc, hxa, this]
    · have : x - A ≠ addr - A := by omega
      simp [hc, this, hxa]
      congr 1
      omega
  · have hxa : x ≠ addr := by omega
    simp [hx, hxa]

theorem read_byte_eq (m : Mem) (addr : Nat) (hm : ∀ x, m x < 256)
    (ha : addr < 2 ^ 64) : read_byte m addr = m addr := by
  have halign := align_addr_to_word_eq addr ha
  have ho : addr - align_addr_to_word addr < 8 := by omega
  have hAaddr : align_addr_to_word addr + (addr - align_addr_to_word addr) = addr := by
    omega
  rw [read_byte, byteExtract_eq, readWord,
    wordOfBytes_byte _ (fun k _ => hm _) _ ho, hAaddr]

theorem wordOfBytes_congr (b b2 : Nat → Nat) (h : ∀ k, k < 8 → b k = b2 k) :
    wordOfBytes b = wordOfBytes b2 := by
  simp only [wordOfBytes, h 0 (by omega), h 1 (by omega), h 2 (by omega),
    h 3 (by omega), h 4 (by omega), h 5 (by omega), h 6 (by omega), h 7 (by omega)]

/-- C4: `write_byte` returns the byte previously stored at the target
address; writing `0xcc` there and then immediately writing the returned
original byte back restores the exact prior memory contents (checked via
`read_byte` and extensionally), and the byte access is carried out over the
word-aligned containing word (the alignment base is a multiple of the word
size and the target byte lies within it). -/
theorem write_byte_prev_and_round_trip (m : Mem) (addr val : Nat)
    (hm : ∀ x, m x < 256) (ha : addr < 2 ^ 64) (hv : val < 256) :
    (write_byte m addr val).1 = m addr ∧
    (∀ x, (write_byte (write_byte m addr 0xcc).2 addr
      (write_byte m addr 0xcc).1).2 x = m x) ∧
    read_byte (write_byte (write_byte m addr 0xcc).2 addr
      (write_byte m addr 0xcc).1).2 addr = read_byte m addr ∧
    align_addr_to_word addr % 8 = 0 ∧ addr - align_addr_to_word addr < 8 := by
  obtain ⟨hv1, _⟩ := write_byte_spec m addr val hm ha hv
  obtain ⟨hcc1, hcc2⟩ := write_byte_spec m addr 0xcc hm ha (by norm_num)
  have hm1 : ∀ x, (write_byte m addr 0xcc).2 x < 256 := by
    intro x
    rw [hcc2 x]
    by_cases h : x = addr
    · simp [h]
    · simp [h, hm x]
  have hb1 : (write_byte m addr 0xcc).1 < 256 := by
    rw [hcc1]
    exact hm addr
  obtain ⟨_, hr2⟩ :=
    write_byte_spec (write_byte m addr 0xcc).2 addr (write_byte m addr 0xcc).1 hm1 ha hb1
  have hext : ∀ x, (write_byte (write_byte m addr 0xcc).2 addr
      (write_byte m addr 0xcc).1).2 x = m x := by
    intro x
    rw [hr2 x]
    by_cases h : x = addr
    · simp [h, hcc1]
    · rw [if_neg h, hcc2 x, if_neg h]
  have hfun : (write_byte (write_byte m addr 0xcc).2 addr
      (write_byte m addr 0xcc).1).2 = m := funext hext
  have halign := align_addr_to_word_eq addr ha
  refine ⟨hv1, hext, ?_, by omega, by omega⟩
  rw [hfun]

/-- C4 witness: address 4242, value 7, on the all-zero memory. -/
theorem write_byte_prev_and_round_trip_witness :
    (write_byte memZero 4242 7).1 = memZero 4242 ∧
    (∀ x, (write_byte (write_byte memZero 4242 0xcc).2 4242
      (write_byte memZero 4242 0xcc).1).2 x = memZero x) ∧
    read_byte (write_byte (write_byte memZero 4242 0xcc).2 4242
      (write_byte memZero 4242 0xcc).1).2 4242 = read_byte memZero 4242 ∧
    align_addr_to_word 4242 % 8 = 0 ∧ 4242 - align_addr_to_word 4242 < 8 :=
  write_byte_prev_and_round_trip memZero 4242 7
    (fun _ => by simp [memZero]) (by norm_num) (by norm_num)

/-- C10: `write_byte` leaves every byte other than the target byte
unchanged; within the containing word the other seven bytes keep their
values, and every word whose base differs from the aligned base reads back
unchanged (no other word is written). -/
theorem write_byte_only_target_byte (m : Mem) (addr val : Nat)
    (hm : ∀ x, m x < 256) (ha : addr < 2 ^ 64) (hv : val < 256) :
    (∀ x, x ≠ addr → (write_byte m addr val).2 x = m x) ∧
    (∀ a, a % 8 = 0 → a ≠ align_addr_to_word addr →
      readWord (write_byte m addr val).2 a = readWord m a) := by
  obtain ⟨_, h2⟩ := write_byte_spec m addr val hm ha hv
  have hfr : ∀ x, x ≠ addr → (write_byte m addr val).2 x = m x := by
    intro x hx
    rw [h2 x, if_neg hx]
  refine ⟨hfr, ?_⟩
  intro a ha8 hne
  have halign := align_addr_to_word_eq addr ha
  rw [readWord, readWord]
  apply wordOfBytes_congr
  intro k hk
  apply hfr
  omega

/-- C10 witness: address 4242, value 7, on the all-zero memory. -/
theorem write_byte_only_target_byte_witness :
    (∀ x, x ≠ 4242 → (write_byte memZero 4242 7).2 x = memZero x) ∧
    (∀ a, a % 8 = 0 → a ≠ align_addr_to_word 4242 →
      readWord (write_byte memZero 4242 7).2 a = readWord memZero a) :=
  write_byte_only_target_byte memZero 4242 7
    (fun _ => by simp [memZero]) (by norm_num) (by norm_num)

theorem BpTable.get_insert_self (t : BpTable) (a : Nat) (b : Breakpoint) :
    (t.insert a b).get? a = some b := by
  induction t with
  | nil => simp [BpTable.insert, BpTable.get?]
  | cons hd tl ih =>
    obtain ⟨k, c⟩ := hd
    by_cases h : k = a <;> simp [BpTable.insert, BpTable.get?, h, ih]

theorem BpTable.len_insert_of_contains (t : BpTable) (a : Nat) (b : Breakpoint)
    (h : (t.get? a).isSome) : (t.insert a b).len = t.len := by
  induction t with
  | nil => simp [BpTable.get?] at h
  | cons hd tl ih =>
    obtain ⟨k, c⟩ := hd
    by_cases hk : k = a
    · simp [BpTable.insert, BpTable.len, hk]
    · simp [BpTable.get?, hk] at h
      simp [BpTable.insert, BpTable.len, hk] at ih ⊢
      exact ih h

/-- C8: when the breakpoint token resolves to no address (bad hex address,
unknown line, unknown function), `set_bp` reports `Invalid breakpoint!` and
the whole session state, in particular the Breakpoint Table, is unchanged. -/
theorem set_bp_invalid_token (d : Debugger) (token : String)
    (gal : Nat → Option Nat) (gaf : String → Option Nat)
    (h : resolve_bp_token token gal gaf = none) :
    d.set_bp token gal gaf = (d, ["Invalid breakpoint!"]) := by
  simp [Debugger.set_bp, h]

/-- C8 witness: the token `zzz` under a resolver that knows no such
function. -/
theorem set_bp_invalid_token_witness :
    dRunning.set_bp "zzz" (fun _ => none) (fun _ => none)
      = (dRunning, ["Invalid breakpoint!"]) :=
  set_bp_invalid_token dRunning "zzz" (fun _ => none) (fun _ => none) (by decide)

/-- C9: declaring a breakpoint twice through the same token (hence at the
same resolved address) leaves the Breakpoint Table size unchanged: the
second declaration reuses the existing record keyed by that address instead
of inserting a duplicate. -/
theorem set_bp_redeclare_len (d : Debugger) (token : String)
    (gal : Nat → Option Nat) (gaf : String → Option Nat) :
    ((d.set_bp token gal gaf).1.set_bp token gal gaf).1.breakpoints.len
      = (d.set_bp token gal gaf).1.breakpoints.len := by
  cases hres : resolve_bp_token token gal gaf with
  | none => simp [Debugger.set_bp, hres]
  | some addr =>
    have hlen : ∀ (t : BpTable) (b b2 : Breakpoint),
        ((t.insert addr b).insert addr b2).len = (t.insert addr b).len := by
      intro t b b2
      apply BpTable.len_insert_of_contains
      rw [BpTable.get_insert_self]
      rfl
    cases hinf : d.inferior with
    | none => simp [Debugger.set_bp, hres, hinf, hlen]
    | some inf => simp [Debugger.set_bp, hres, hinf, hlen]

/-- C5 counterexample: the iteration that reaches line `oldLine + 1` does
break, but it emits no output at all — the claim's requirement that the
loop also *reports the new location* is false on the code (debugger.rs
lines 256-259 just break without printing). -/
theorem nextIter_break_emits_no_report :
    (dStepping.nextIter (fun _ => some { number := 7 }) 6
      (Event.stops SIGTRAP 600)).2.2 = true ∧
    (dStepping.nextIter (fun _ => some { number := 7 }) 6
      (Event.stops SIGTRAP 600)).2.1 = [] := by
  exact ⟨rfl, rfl⟩

/-- C5 amended: in the Next loop, after a trap-class stop at `rip` that is
not a breakpoint landing (`rip - 1` is not declared), the iteration prints
nothing, and it breaks exactly when the source line resolved for `rip` has
number `oldLine + 1`; if the line is unchanged, any other number, or
unresolvable, the loop keeps single-stepping.  No location report is
emitted for such a stop. -/
theorem nextIter_breaks_iff_next_line (d : Debugger) (inf : Inferior)
    (gl : Nat → Option Line) (oldLine rip : Nat)
    (hinf : d.inferior = some inf)
    (hbp : d.breakpoints.get? (rip - 1) = none) :
    (d.nextIter gl oldLine (Event.stops SIGTRAP rip)).2.1 = [] ∧
    ((d.nextIter gl oldLine (Event.stops SIGTRAP rip)).2.2 = true ↔
      ∃ l, gl rip = some l ∧ l.number = oldLine + 1) := by
  by_cases hfl : d.inferior_stopped_by_bp <;>
    cases hgl : gl rip with
    | none =>
      simp [Debugger.nextIter, hinf, Inferior.step, Inferior.applyEvent,
        Debugger.reset_bp, Debugger.restore_bp, hbp, hfl, hgl]
    | some line =>
      by_cases hn : line.number = oldLine + 1 <;>
        simp [Debugger.nextIter, hinf, Inferior.step, Inferior.applyEvent,
          Debugger.reset_bp, Debugger.restore_bp, hbp, hfl, hgl, hn]

/-- C5 witness: stepping inside line 6 with no breakpoints declared, a trap
stop at rip 600 resolving to line 7 breaks the loop, silently. -/
theorem nextIter_breaks_iff_next_line_witness :
    (dStepping.nextIter (fun _ => some { number := 7 }) 6
      (Event.stops SIGTRAP 600)).2.1 = [] ∧
    (dStepping.nextIter (fun _ => some { number := 7 }) 6
      (Event.stops SIGTRAP 600)).2.2 = true :=
  ⟨(nextIter_breaks_iff_next_line dStepping _ (fun _ => some { number := 7 })
      6 600 rfl rfl).1,
    (nextIter_breaks_iff_next_line dStepping _ (fun _ => some { number := 7 })
      6 600 rfl rfl).2.mpr ⟨{ number := 7 }, rfl, rfl⟩⟩

/-- C2 counterexample: with a breakpoint declared only at 4096 and no
step-over pending, a trap-class stop at rip 50 (so `rip - 1 = 49` matches
no declared breakpoint) still comes out with `inferior_stopped_by_bp`
set, though the claim says the flag is not set in that case. -/
theorem cont_sets_flag_on_non_breakpoint_trap :
    dRunning.breakpoints.get? (50 - 1) = none ∧
    (dRunning.cont (fun _ => none) Event.errs
      (Event.stops SIGTRAP 50)).1.inferior_stopped_by_bp = true := by
  constructor <;> rfl

/-- C2 amended: on a trap-class stop at `rip`, if `rip - 1` is a declared
breakpoint the engine restores the stored original byte at that address
(leaving all other bytes unchanged), rewinds the instruction pointer to
`rip - 1` and sets `inferior_stopped_by_bp`; if `rip - 1` matches no
declared breakpoint, memory and instruction pointer are untouched, but the
flag is still set — the code sets it on every trap-class stop, not only on
breakpoint landings. -/
theorem cont_trap_stop_bookkeeping (d : Debugger) (inf : Inferior)
    (gl : Nat → Option Line) (evStep : Event) (rip : Nat)
    (hinf : d.inferior = some inf) (halive : inf.alive = true)
    (hflag : d.inferior_stopped_by_bp = false)
    (hm : ∀ x, inf.mem x < 256) :
    (∀ bp, d.breakpoints.get? (rip - 1) = some bp → bp.addr < 2 ^ 64 →
      bp.orig_byte < 256 →
      ∃ i, (d.cont gl evStep (Event.stops SIGTRAP rip)).1.inferior = some i ∧
        i.mem bp.addr = bp.orig_byte ∧
        (∀ x, x ≠ bp.addr → i.mem x = inf.mem x) ∧
        i.rip = rip - 1 ∧
        (d.cont gl evStep (Event.stops SIGTRAP rip)).1.inferior_stopped_by_bp = true) ∧
    (d.breakpoints.get? (rip - 1) = none →
      ∃ i, (d.cont gl evStep (Event.stops SIGTRAP rip)).1.inferior = some i ∧
        i.mem = inf.mem ∧ i.rip = rip ∧
        (d.cont gl evStep (Event.stops SIGTRAP rip)).1.inferior_stopped_by_bp = true) := by
  have hcont : d.cont gl evStep (Event.stops SIGTRAP rip)
      = Debugger.contResume d gl (Event.stops SIGTRAP rip) := by
    simp [Debugger.cont, hinf, halive, hflag]
  constructor
  · intro bp hbp hba hbo
    obtain ⟨hw1, hw2⟩ := write_byte_spec inf.mem bp.addr bp.orig_byte hm hba hbo
    refine ⟨Inferior.step_back_rip
      { { inf with rip := rip } with
          mem := (write_byte inf.mem bp.addr bp.orig_byte).2 }, ?_, ?_, ?_, ?_, ?_⟩
    · rw [hcont]
      simp [Debugger.contResume, hinf, Inferior.cont, Inferior.applyEvent,
        Debugger.restore_bp, hbp]
    · show (write_byte inf.mem bp.addr bp.orig_byte).2 bp.addr = bp.orig_byte
      rw [hw2 bp.addr, if_pos rfl]
    · intro x hx
      show (write_byte inf.mem bp.addr bp.orig_byte).2 x = inf.mem x
      rw [hw2 x, if_neg hx]
    · rfl
    · rw [hcont]
      simp [Debugger.contResume, hinf, Inferior.cont, Inferior.applyEvent,
        Debugger.restore_bp, hbp]
  · intro hbp
    refine ⟨{ inf with rip := rip }, ?_, rfl, rfl, ?_⟩
    · rw [hcont]
      simp [Debugger.contResume, hinf, Inferior.cont, Inferior.applyEvent,
        Debugger.restore_bp, hbp]
    · rw [hcont]
      simp [Debugger.contResume, hinf, Inferior.cont, Inferior.applyEvent,
        Debugger.restore_bp, hbp]

/-- C2 witness: the declared breakpoint at 4096 is hit (stop at rip 4097):
the original byte 144 is back in memory, the instruction pointer is 4096,
and the flag is set. -/
theorem cont_trap_stop_bookkeeping_witness :
    ∃ i, (dRunning.cont (fun _ => none) Event.errs
        (Event.stops SIGTRAP 4097)).1.inferior = some i ∧
      i.mem 4096 = 144 ∧
      (∀ x, x ≠ 4096 → i.mem x = mem144 x) ∧
      i.rip = 4097 - 1 ∧
      (dRunning.cont (fun _ => none) Event.errs
        (Event.stops SIGTRAP 4097)).1.inferior_stopped_by_bp = true :=
  (cont_trap_stop_bookkeeping dRunning _ (fun _ => none) Event.errs 4097
      rfl rfl rfl (fun _ => by simp [mem144])).1
    { addr := 4096, orig_byte := 144 } rfl (by norm_num) (by norm_num)

/-- C1: the code fails to rearm.  Failing input: breakpoint at 4096 whose
original (two-byte) instruction was restored and the step-over is pending;
the single step stops at rip 4098, `reset_bp` looks up `4098 - 1 = 4097`,
finds no record, and the trap byte is never re-inserted: after the full
Continue (whose resume went beyond the immediate step) the live child still
has byte 144 at 4096, not `0xcc`, with the breakpoint still declared. -/
theorem reset_bp_misses_rearm_after_two_byte_step :
    ((dHalted.cont (fun _ => none) (Event.stops SIGTRAP 4098)
        (Event.stops SIGTRAP 9999)).1.inferior.map
      (fun i => (i.mem 4096, i.alive))) = some (144, true) ∧
    (dHalted.cont (fun _ => none) (Event.stops SIGTRAP 4098)
        (Event.stops SIGTRAP 9999)).1.breakpoints.get? 4096
      = some { addr := 4096, orig_byte := 144 } := by
  constructor <;> rfl

/-- C7 amended: only the Continue handler checks both that an Inferior
exists and that it is alive, reporting `No running subprocess` and
performing no process operation otherwise.  The Next arm reports
`No running subprocess!` only when no Inferior exists; with a present but
dead Inferior it reads the instruction pointer, the read fails, and the
unwrap on it panics the session instead of reporting.  The Backtrace arm
emits no report at all when no Inferior exists, and with a dead Inferior
present its attempted register read fails, producing an error report. -/
theorem no_live_inferior_reports :
    (∀ (d : Debugger) (gl : Nat → Option Line) (evS evC : Event),
      d.inferior = none → d.cont gl evS evC = (d, ["No running subprocess"])) ∧
    (∀ (d : Debugger) (inf : Inferior) (gl : Nat → Option Line) (evS evC : Event),
      d.inferior = some inf → inf.alive = false →
      d.cont gl evS evC = (d, ["No running subprocess"])) ∧
    (∀ (d : Debugger) (gf : Nat → Option String) (gl : Nat → Option Line) (fuel : Nat),
      d.inferior = none → d.backtraceCmd gf gl fuel = (d, [])) ∧
    (∀ (d : Debugger) (inf : Inferior) (gf : Nat → Option String)
      (gl : Nat → Option Line) (fuel : Nat),
      d.inferior = some inf → inf.alive = false →
      d.backtraceCmd gf gl fuel = (d, ["Error printing backtrace"])) ∧
    (∀ (d : Debugger) (gl : Nat → Option Line) (evs : List Event),
      d.inferior = none → d.nextCmd gl evs = some (d, ["No running subprocess!"])) ∧
    (∀ (d : Debugger) (inf : Inferior) (gl : Nat → Option Line) (evs : List Event),
      d.inferior = some inf → inf.alive = false → d.nextCmd gl evs = none) := by
  refine ⟨?_, ?_, ?_, ?_, ?_, ?_⟩
  · intro d gl evS evC h
    simp [Debugger.cont, h]
  · intro d inf gl evS evC h ha
    simp [Debugger.cont, h, ha]
  · intro d gf gl fuel h
    simp [Debugger.backtraceCmd, h]
  · intro d inf gf gl fuel h ha
    simp [Debugger.backtraceCmd, h, ha]
  · intro d gl evs h
    simp [Debugger.nextCmd, h]
  · intro d inf gl evs h ha
    simp [Debugger.nextCmd, Inferior.get_rip, h, ha]

/-- C7 witness: the six situations at concrete states, live Inferior absent
or dead. -/
theorem no_live_inferior_reports_witness :
    dEmpty.cont (fun _ => none) Event.errs Event.errs
      = (dEmpty, ["No running subprocess"]) ∧
    dDead.cont (fun _ => none) Event.errs Event.errs
      = (dDead, ["No running subprocess"]) ∧
    dEmpty.backtraceCmd (fun _ => none) (fun _ => none) 3 = (dEmpty, []) ∧
    dDead.backtraceCmd (fun _ => none) (fun _ => none) 3
      = (dDead, ["Error printing backtrace"]) ∧
    dEmpty.nextCmd (fun _ => none) [] = some (dEmpty, ["No running subprocess!"]) ∧
    dDead.nextCmd (fun _ => none) [] = none :=
  ⟨no_live_inferior_reports.1 dEmpty (fun _ => none) Event.errs Event.errs rfl,
    no_live_inferior_reports.2.1 dDead _ (fun _ => none) Event.errs Event.errs rfl rfl,
    no_live_inferior_reports.2.2.1 dEmpty (fun _ => none) (fun _ => none) 3 rfl,
    no_live_inferior_reports.2.2.2.1 dDead _ (fun _ => none) (fun _ => none) 3 rfl rfl,
    no_live_inferior_reports.2.2.2.2.1 dEmpty (fun _ => none) [] rfl,
    no_live_inferior_reports.2.2.2.2.2 dDead _ (fun _ => none) [] rfl rfl⟩

/-- C7 counterexample: a Backtrace issued with no Inferior emits no message
whatsoever — in particular not the `no running subprocess` report the claim
requires — and a Next issued with a dead Inferior present panics on the
failed instruction-pointer read instead of reporting a normal outcome. -/
theorem backtrace_without_inferior_is_silent :
    dEmpty.backtraceCmd (fun _ => none) (fun _ => none) 5 = (dEmpty, []) ∧
    (dEmpty.backtraceCmd (fun _ => none) (fun _ => none) 5).2
      ≠ ["No running subprocess"] ∧
    dDead.nextCmd (fun _ => none) [] = none := by
  exact ⟨rfl, by decide, rfl⟩

theorem BpTable.get_eq_some_mem (t : BpTable) (a : Nat) (bp : Breakpoint)
    (h : t.get? a = some bp) : (a, bp) ∈ t := by
  induction t with
  | nil => simp [BpTable.get?] at h
  | cons hd tl ih =>
    obtain ⟨k, c⟩ := hd
    by_cases hk : k = a
    · subst hk
      simp [BpTable.get?] at h
      simp [h]
    · simp [BpTable.get?, hk] at h
      simp [ih h]

/-- Behaviour of the spawn-time patch loop: on a well-formed table it keeps
bytes well-formed, preserves keys, addresses and well-formedness, captures
displaced bytes below 256, leaves non-breakpoint bytes alone, and writes
the trap byte `0xcc` at every declared key. -/
theorem applyAll_spec (t : BpTable) :
    ∀ (m : Mem), (∀ x, m x < 256) → wfTable t →
    (∀ x, (applyAll t m).2 x < 256) ∧
    wfTable (applyAll t m).1 ∧
    ((applyAll t m).1.map Prod.fst = t.map Prod.fst) ∧
    (∀ p ∈ (applyAll t m).1, p.2.orig_byte < 256) ∧
    (∀ x, x ∉ t.map Prod.fst → (applyAll t m).2 x = m x) ∧
    (∀ p ∈ (applyAll t m).1, (applyAll t m).2 p.1 = 0xcc) := by
  induction t with
  | nil =>
    intro m hm _
    exact ⟨hm, ⟨by simp [applyAll], by simp [applyAll]⟩, by simp [applyAll],
      by simp [applyAll], fun x _ => by simp [applyAll], by simp [applyAll]⟩
  | cons hd tl ih =>
    intro m hm hwf
    obtain ⟨k, bp⟩ := hd
    obtain ⟨hwf1, hwf2⟩ := hwf
    have hk64 : k < 2 ^ 64 := (hwf1 (k, bp) (by simp)).2
    obtain ⟨hw1, hw2⟩ := write_byte_spec m k 0xcc hm hk64 (by norm_num)
    have hm1 : ∀ x, (write_byte m k 0xcc).2 x < 256 := by
      intro x
      rw [hw2 x]
      by_cases h : x = k
      · simp [h]
      · simp [h, hm x]
    have hnd : (tl.map Prod.fst).Nodup ∧ k ∉ tl.map Prod.fst := by
      simp only [List.map_cons, List.nodup_cons] at hwf2
      exact ⟨hwf2.2, hwf2.1⟩
    have hwft : wfTable tl :=
      ⟨fun p hp => hwf1 p (by simp [hp]), hnd.1⟩
    obtain ⟨ih1, ih2, ih3, ih4, ih5, ih6⟩ := ih (write_byte m k 0xcc).2 hm1 hwft
    have happ : applyAll ((k, bp) :: tl) m
        = ((k, { bp with orig_byte := (write_byte m k 0xcc).1 }) ::
            (applyAll tl (write_byte m k 0xcc).2).1,
          (applyAll tl (write_byte m k 0xcc).2).2) := rfl
    rw [happ]
    refine ⟨ih1, ⟨?_, ?_⟩, ?_, ?_, ?_, ?_⟩
    · intro p hp
      rcases List.mem_cons.mp hp with h | h
      · subst h
        exact ⟨(hwf1 (k, bp) (by simp)).1, hk64⟩
      · exact ih2.1 p h
    · simp only [List.map_cons, List.nodup_cons, ih3]
      exact ⟨hnd.2, hnd.1⟩
    · simp [ih3]
    · intro p hp
      rcases List.mem_cons.mp hp with h | h
      · subst h
        show (write_byte m k 0xcc).1 < 256
        rw [hw1]
        exact hm k
      · exact ih4 p h
    · intro x hx
      simp only [List.map_cons, List.mem_cons] at hx
      push_neg at hx
      rw [ih5 x hx.2, hw2 x, if_neg hx.1]
    · intro p hp
      rcases List.mem_cons.mp hp with h | h
      · subst h
        show (applyAll tl (write_byte m k 0xcc).2).2 k = 0xcc
        rw [ih5 k hnd.2, hw2 k, if_pos rfl]
      · exact ih6 p h

/-- C3 counterexample, both failing scenarios.  First: a run with
breakpoint 4096 declared: the spawn patches it (displacing byte 144), but
the auto-continue lands on the breakpoint (trap stop at rip 4097) and
restores the original byte, so the completed `run` leaves a live Inferior
whose memory holds 144 — not the trap byte — at the declared breakpoint
address.  Second: a run whose spawn fails while a live Inferior exists
kills that Inferior but keeps its handle, so the session ends the run with
an Inferior present (now dead) rather than none at all. -/
theorem run_can_leave_declared_bp_unpatched :
    (∃ i, (dDeclared.runCmd (some (mem144, 100)) (fun _ => none) Event.errs
        (Event.stops SIGTRAP 4097)).1.inferior = some i ∧
      i.alive = true ∧ i.mem 4096 = 144 ∧ (144 : Nat) ≠ 0xcc) ∧
    (dLive.runCmd none (fun _ => none) Event.errs Event.errs).1.inferior.map
      (fun i => i.alive) = some false := by
  refine ⟨?_, rfl⟩
  obtain ⟨h11, h12⟩ := write_byte_spec mem144 4096 0xcc
    (fun _ => by simp [mem144]) (by norm_num) (by norm_num)
  have hm1 : ∀ x, (write_byte mem144 4096 0xcc).2 x < 256 := by
    intro x
    rw [h12 x]
    by_cases h : x = 4096
    · simp [h]
    · simp [h, mem144]
  obtain ⟨h21, h22⟩ := write_byte_spec (write_byte mem144 4096 0xcc).2 4096
    (write_byte mem144 4096 0xcc).1 hm1 (by norm_num)
    (by rw [h11]; simp [mem144])
  simp only [Debugger.runCmd, dDeclared, Inferior.new, applyAll,
    Debugger.cont, Debugger.contResume, Inferior.cont, Inferior.applyEvent,
    Debugger.restore_bp, Inferior.step_back_rip, BpTable.get?, SIGTRAP]
  norm_num
  exact h11

theorem BpTable.mem_insert (t : BpTable) (a : Nat) (b : Breakpoint) :
    ∀ p ∈ t.insert a b, p = (a, b) ∨ p ∈ t := by
  induction t with
  | nil =>
    intro p hp
    simp [BpTable.insert] at hp
    exact Or.inl hp
  | cons hd tl ih =>
    obtain ⟨k, c⟩ := hd
    intro p hp
    by_cases hk : k = a
    · subst hk
      have he : BpTable.insert ((k, c) :: tl) k b = (k, b) :: tl := by
        simp [BpTable.insert]
      rw [he] at hp
      rcases List.mem_cons.mp hp with h | h
      · exact Or.inl h
      · exact Or.inr (List.mem_cons.mpr (Or.inr h))
    · have he : BpTable.insert ((k, c) :: tl) a b = (k, c) :: BpTable.insert tl a b := by
        simp [BpTable.insert, hk]
      rw [he] at hp
      rcases List.mem_cons.mp hp with h | h
      · exact Or.inr (List.mem_cons.mpr (Or.inl h))
      · rcases ih p h with h2 | h2
        · exact Or.inl h2
        · exact Or.inr (List.mem_cons.mpr (Or.inr h2))

theorem BpTable.map_fst_insert_of_contains (t : BpTable) (a : Nat)
    (b bp : Breakpoint) (h : t.get? a = some bp) :
    (t.insert a b).map Prod.fst = t.map Prod.fst := by
  induction t with
  | nil => simp [BpTable.get?] at h
  | cons hd tl ih =>
    obtain ⟨k, c⟩ := hd
    by_cases hk : k = a
    · subst hk
      simp [BpTable.insert]
    · simp only [BpTable.get?, if_neg hk] at h
      simp [BpTable.insert, hk, ih h]

/-- Effect of a step-phase `reset_bp` hit on the run invariant: rewriting
the trap byte at the found record's address keeps every byte well-formed,
keeps the table well-formed with bounded displaced bytes, and keeps the
trap byte present at every declared key. -/
theorem reset_bp_preserves (T : BpTable) (mem0 : Mem) (rip1 : Nat)
    (bp : Breakpoint) (hg : T.get? (rip1 - 1) = some bp)
    (hm : ∀ x, mem0 x < 256) (hwf : wfTable T)
    (horig : ∀ p ∈ T, p.2.orig_byte < 256)
    (hpatch : ∀ p ∈ T, mem0 p.1 = 0xcc) :
    (∀ x, (write_byte mem0 bp.addr 0xcc).2 x < 256) ∧
    wfTable (T.insert (rip1 - 1)
      { bp with orig_byte := (write_byte mem0 bp.addr 0xcc).1 }) ∧
    (∀ p ∈ T.insert (rip1 - 1)
        { bp with orig_byte := (write_byte mem0 bp.addr 0xcc).1 },
      p.2.orig_byte < 256) ∧
    (∀ p ∈ T.insert (rip1 - 1)
        { bp with orig_byte := (write_byte mem0 bp.addr 0xcc).1 },
      (write_byte mem0 bp.addr 0xcc).2 p.1 = 0xcc) := by
  have hmemT := BpTable.get_eq_some_mem _ _ _ hg
  have hbaddr := hwf.1 _ hmemT
  obtain ⟨hw1, hw2⟩ := write_byte_spec mem0 bp.addr 0xcc hm
    (hbaddr.1 ▸ hbaddr.2) (by norm_num)
  have hbytes : ∀ x, (write_byte mem0 bp.addr 0xcc).2 x < 256 := by
    intro x
    rw [hw2 x]
    by_cases h : x = bp.addr
    · simp [h]
    · simp [h, hm x]
  refine ⟨hbytes, ⟨?_, ?_⟩, ?_, ?_⟩
  · intro p hp
    rcases BpTable.mem_insert T _ _ p hp with h | h
    · subst h
      exact ⟨hbaddr.1, hbaddr.2⟩
    · exact hwf.1 p h
  · rw [BpTable.map_fst_insert_of_contains T _ _ bp hg]
    exact hwf.2
  · intro p hp
    rcases BpTable.mem_insert T _ _ p hp with h | h
    · subst h
      show (write_byte mem0 bp.addr 0xcc).1 < 256
      rw [hw1]
      exact hm bp.addr
    · exact horig p h
  · intro p hp
    by_cases hpk : p.1 = bp.addr
    · rw [hpk, hw2 bp.addr, if_pos rfl]
    · rcases BpTable.mem_insert T _ _ p hp with h | h
      · exact absurd (h ▸ hbaddr.1.symm : p.1 = bp.addr) hpk
      · rw [hw2 p.1, if_neg hpk]
        exact hpatch p h

/-- The resume half of the Continue protocol preserves the run invariant:
from a state whose Inferior has every declared breakpoint patched, any
resume outcome leaves no Inferior, or an Inferior with every breakpoint
byte still `0xcc` except possibly the one at the rolled-back instruction
pointer when the stop flag was just set. -/
theorem contResume_preserves (d : Debugger) (inf : Inferior)
    (gl : Nat → Option Line) (evCont : Event)
    (hinf : d.inferior = some inf)
    (hm : ∀ x, inf.mem x < 256)
    (hwf : wfTable d.breakpoints)
    (horig : ∀ p ∈ d.breakpoints, p.2.orig_byte < 256)
    (hpatch : ∀ p ∈ d.breakpoints, inf.mem p.1 = 0xcc) :
    (Debugger.contResume d gl evCont).1.inferior = none ∨
    ∃ i, (Debugger.contResume d gl evCont).1.inferior = some i ∧
      (i.alive = false ∨
        ∀ p ∈ (Debugger.contResume d gl evCont).1.breakpoints,
          i.mem p.1 = 0xcc ∨
            ((Debugger.contResume d gl evCont).1.inferior_stopped_by_bp = true ∧
              p.1 = i.rip)) := by
  cases evCont with
  | errs =>
    right
    refine ⟨inf,
      by simp [Debugger.contResume, hinf, Inferior.cont, Inferior.applyEvent],
      Or.inr ?_⟩
    intro q hq
    simp only [Debugger.contResume, hinf, Inferior.cont, Inferior.applyEvent] at hq ⊢
    exact Or.inl (hpatch q hq)
  | exits code =>
    left
    simp [Debugger.contResume, hinf, Inferior.cont, Inferior.applyEvent]
  | killedBy sig =>
    left
    simp [Debugger.contResume, hinf, Inferior.cont, Inferior.applyEvent]
  | stops sig rip2 =>
    by_cases hsig : sig = SIGTRAP
    · subst hsig
      cases hg : d.breakpoints.get? (rip2 - 1) with
      | none =>
        right
        refine ⟨{ inf with rip := rip2 }, ?_, Or.inr ?_⟩
        · simp [Debugger.contResume, hinf, Inferior.cont, Inferior.applyEvent,
            Debugger.restore_bp, hg]
        · intro q hq
          simp only [Debugger.contResume, Inferior.cont, Inferior.applyEvent,
            Debugger.restore_bp, hinf] at hq
          simp only [hg] at hq
          simp at hq
          exact Or.inl (hpatch q hq)
      | some bp =>
        right
        have hmemT : (rip2 - 1, bp) ∈ d.breakpoints :=
          BpTable.get_eq_some_mem _ _ _ hg
        have hbaddr : bp.addr = rip2 - 1 ∧ rip2 - 1 < 2 ^ 64 := hwf.1 _ hmemT
        have hborig : bp.orig_byte < 256 := horig _ hmemT
        obtain ⟨hw1, hw2⟩ := write_byte_spec inf.mem bp.addr
          bp.orig_byte hm (hbaddr.1 ▸ hbaddr.2) hborig
        refine ⟨Inferior.step_back_rip
          { { inf with rip := rip2 } with
              mem := (write_byte inf.mem bp.addr bp.orig_byte).2 },
          ?_, Or.inr ?_⟩
        · simp [Debugger.contResume, hinf, Inferior.cont, Inferior.applyEvent,
            Debugger.restore_bp, hg]
        · intro q hq
          simp only [Debugger.contResume, Inferior.cont, Inferior.applyEvent,
            Debugger.restore_bp, hinf] at hq
          simp only [hg] at hq
          simp at hq
          by_cases hqk : q.1 = rip2 - 1
          · right
            constructor
            · simp [Debugger.contResume, hinf, Inferior.cont, Inferior.applyEvent,
                Debugger.restore_bp, hg]
            · simpa [Inferior.step_back_rip] using hqk
          · left
            show (write_byte inf.mem bp.addr bp.orig_byte).2 q.1 = 0xcc
            rw [hw2 q.1, if_neg (by rw [hbaddr.1]; exact hqk)]
            exact hpatch q hq
    · right
      refine ⟨{ inf with rip := rip2 }, ?_, Or.inr ?_⟩
      · simp [Debugger.contResume, hinf, Inferior.cont, Inferior.applyEvent, hsig]
      · intro q hq
        simp only [Debugger.contResume, Inferior.cont, Inferior.applyEvent,
          hinf] at hq
        simp [hsig] at hq
        exact Or.inl (hpatch q hq)

/-- C3 amended: after any completed `run`, the session holds either no
Inferior, or an Inferior that is no longer alive (the stale handle kept
when a respawn fails), or a live Inferior in whose memory the trap byte is
written at every declared breakpoint's address except possibly the
breakpoint at the current instruction pointer when
`inferior_stopped_by_bp` is set (the auto-continue landed on it and
restored its original byte pending the step-over). -/
theorem runCmd_patches (d : Debugger) (spawn : Option (Mem × Nat))
    (gl : Nat → Option Line) (evStep evCont : Event)
    (hwf : wfTable d.breakpoints)
    (hspawn : ∀ m r, spawn = some (m, r) → ∀ x, m x < 256) :
    (Debugger.runCmd d spawn gl evStep evCont).1.inferior = none ∨
    ∃ i, (Debugger.runCmd d spawn gl evStep evCont).1.inferior = some i ∧
      (i.alive = false ∨
        ∀ p ∈ (Debugger.runCmd d spawn gl evStep evCont).1.breakpoints,
          i.mem p.1 = 0xcc ∨
            ((Debugger.runCmd d spawn gl evStep evCont).1.inferior_stopped_by_bp = true ∧
              p.1 = i.rip)) := by
  cases spawn with
  | none =>
    cases hinf : d.inferior with
    | none =>
      left
      simp [Debugger.runCmd, Inferior.new, hinf]
    | some i =>
      right
      cases hal : i.alive with
      | false =>
        exact ⟨i, by simp [Debugger.runCmd, Inferior.new, hinf, hal], Or.inl hal⟩
      | true =>
        exact ⟨{ i with alive := false },
          by simp [Debugger.runCmd, Inferior.new, hinf, hal], Or.inl rfl⟩
  | some p =>
    obtain ⟨m, r⟩ := p
    have hm : ∀ x, m x < 256 := hspawn m r rfl
    obtain ⟨ha1, ha2, ha3, ha4, ha5, ha6⟩ := applyAll_spec d.breakpoints m hm hwf
    have hrun : Debugger.runCmd d (some (m, r)) gl evStep evCont
        = Debugger.cont
            { d with
              inferior := some
                { mem := (applyAll d.breakpoints m).2, rip := r, rbp := 0, alive := true },
              breakpoints := (applyAll d.breakpoints m).1 }
            gl evStep evCont := by
      unfold Debugger.runCmd
      cases hinf : d.inferior with
      | none => simp [Inferior.new, hinf]
      | some i =>
        by_cases h : i.alive <;> simp [Inferior.new, hinf, h]
    rw [hrun]
    set inf0 : Inferior :=
      { mem := (applyAll d.breakpoints m).2, rip := r, rbp := 0, alive := true } with hinf0
    set dR : Debugger :=
      { d with inferior := some inf0, breakpoints := (applyAll d.breakpoints m).1 } with hdR
    cases hflag : d.inferior_stopped_by_bp with
    | false =>
      have hcont : Debugger.cont dR gl evStep evCont
          = Debugger.contResume dR gl evCont := by
        simp [Debugger.cont, hdR, hinf0, hflag]
      rw [hcont]
      exact contResume_preserves dR inf0 gl evCont rfl ha1 ha2 ha4 ha6
    | true =>
      cases evStep with
      | errs =>
        left
        simp [Debugger.cont, hdR, hinf0, hflag, Inferior.step, Inferior.applyEvent]
      | exits code =>
        left
        simp [Debugger.cont, hdR, hinf0, hflag, Inferior.step, Inferior.applyEvent]
      | killedBy sig =>
        left
        simp [Debugger.cont, hdR, hinf0, hflag, Inferior.step, Inferior.applyEvent]
      | stops sig rip1 =>
        by_cases hsig : sig = SIGTRAP
        · subst hsig
          cases hg : (applyAll d.breakpoints m).1.get? (rip1 - 1) with
          | none =>
            have hcont : Debugger.cont dR gl (Event.stops SIGTRAP rip1) evCont
                = Debugger.contResume
                    { d with
                      inferior := some { inf0 with rip := rip1 }
                      breakpoints := (applyAll d.breakpoints m).1
                      inferior_stopped_by_bp := false } gl evCont := by
              simp [Debugger.cont, hdR, hinf0, hflag, Inferior.step,
                Inferior.applyEvent, Debugger.reset_bp, hg]
            rw [hcont]
            exact contResume_preserves _ { inf0 with rip := rip1 } gl evCont
              rfl ha1 ha2 ha4 ha6
          | some bp =>
            obtain ⟨hb1, hb2, hb3, hb4⟩ := reset_bp_preserves
              (applyAll d.breakpoints m).1 (applyAll d.breakpoints m).2 rip1 bp
              hg ha1 ha2 ha4 ha6
            have hcont : Debugger.cont dR gl (Event.stops SIGTRAP rip1) evCont
                = Debugger.contResume
                    { d with
                      inferior := some
                        { inf0 with
                          rip := rip1
                          mem := (write_byte (applyAll d.breakpoints m).2 bp.addr 0xcc).2 }
                      breakpoints := (applyAll d.breakpoints m).1.insert (rip1 - 1)
                        { bp with
                          orig_byte := (write_byte (applyAll d.breakpoints m).2 bp.addr 0xcc).1 }
                      inferior_stopped_by_bp := false } gl evCont := by
              simp [Debugger.cont, hdR, hinf0, hflag, Inferior.step,
                Inferior.applyEvent, Debugger.reset_bp, hg]
            rw [hcont]
            exact contResume_preserves _
              { inf0 with
                rip := rip1
                mem := (write_byte (applyAll d.breakpoints m).2 bp.addr 0xcc).2 }
              gl evCont rfl hb1 hb2 hb3 hb4
        · have hcont : Debugger.cont dR gl (Event.stops sig rip1) evCont
              = Debugger.contResume
                  { d with
                    inferior := some { inf0 with rip := rip1 }
                    breakpoints := (applyAll d.breakpoints m).1 } gl evCont := by
            simp [Debugger.cont, hdR, hinf0, hflag, Inferior.step,
              Inferior.applyEvent, hsig]
          rw [hcont]
          exact contResume_preserves _ { inf0 with rip := rip1 } gl evCont
            rfl ha1 ha2 ha4 ha6

/-- C3 witness for the amended statement: an empty fresh session, a spawn
with all-zero memory, and a child that exits during the auto-continue. -/
theorem runCmd_patches_witness :
    (Debugger.runCmd dEmpty (some (memZero, 7)) (fun _ => none) Event.errs
      (Event.exits 0)).1.inferior = none ∨
    ∃ i, (Debugger.runCmd dEmpty (some (memZero, 7)) (fun _ => none) Event.errs
        (Event.exits 0)).1.inferior = some i ∧
      (i.alive = false ∨
        ∀ p ∈ (Debugger.runCmd dEmpty (some (memZero, 7)) (fun _ => none) Event.errs
          (Event.exits 0)).1.breakpoints,
          i.mem p.1 = 0xcc ∨
            ((Debugger.runCmd dEmpty (some (memZero, 7)) (fun _ => none) Event.errs
              (Event.exits 0)).1.inferior_stopped_by_bp = true ∧ p.1 = i.rip)) :=
  runCmd_patches dEmpty (some (memZero, 7)) (fun _ => none) Event.errs
    (Event.exits 0) ⟨by simp [dEmpty], by simp [dEmpty]⟩
    (fun m r h x => by
      cases h
      simp [memZero])

theorem map_range_succ {α : Type} (f : Nat → α) (n : Nat) :
    List.map f (List.range (n + 1)) = f 0 :: List.map (fun i => f (i + 1)) (List.range n) := by
  rw [List.range_succ_eq_map, List.map_cons, List.map_map]
  rfl

theorem frameChain_succ_shift (m : Mem) (rip rbp : Nat) (i : Nat) :
    frameChain m rip rbp (i + 1)
      = frameChain m (readWord m (rbp + 8)) (readWord m rbp) i := by
  induction i with
  | zero => rfl
  | succ n ihn =>
    show (readWord m ((frameChain m rip rbp (n + 1)).2 + 8),
        readWord m (frameChain m rip rbp (n + 1)).2)
      = (readWord m ((frameChain m (readWord m (rbp + 8)) (readWord m rbp) n).2 + 8),
        readWord m (frameChain m (readWord m (rbp + 8)) (readWord m rbp) n).2)
    rw [ihn]

theorem unwindLoop_ok (gf : Nat → Option String) (gl : Nat → Option Line)
    (m : Mem) :
    ∀ (n fuel rip rbp : Nat) (F : Nat → String) (L : Nat → Line),
      n < fuel →
      (∀ i, i ≤ n → gf (frameChain m rip rbp i).1 = some (F i) ∧
        gl (frameChain m rip rbp i).1 = some (L i)) →
      (∀ i, i < n → F i ≠ "main") → F n = "main" →
      unwindLoop gf gl m fuel rip rbp
        = some (Except.ok ((List.range (n + 1)).map (fun i => (F i, L i)))) := by
  intro n
  induction n with
  | zero =>
    intro fuel rip rbp F L hfuel hres _ hlast
    obtain ⟨f1, f2⟩ := hres 0 (le_refl 0)
    simp only [frameChain] at f1 f2
    cases fuel with
    | zero => omega
    | succ fl => simp [unwindLoop, f1, f2, hlast, map_range_succ]
  | succ n ihn =>
    intro fuel rip rbp F L hfuel hres hmain hlast
    cases fuel with
    | zero => omega
    | succ fl =>
      obtain ⟨f1, f2⟩ := hres 0 (by omega)
      simp only [frameChain] at f1 f2
      have hm0 : ¬ (F 0 = "main") := hmain 0 (by omega)
      have ih2 := ihn fl (readWord m (rbp + 8)) (readWord m rbp)
        (fun i => F (i + 1)) (fun i => L (i + 1)) (by omega)
        (fun i hi => by
          have h := hres (i + 1) (by omega)
          rwa [frameChain_succ_shift] at h)
        (fun i hi => hmain (i + 1) (by omega))
        hlast
      simp only [unwindLoop, f1, f2, hm0, if_false, ih2]
      rw [map_range_succ (fun i => (F i, L i)) (n + 1)]

theorem unwindLoop_err (gf : Nat → Option String) (gl : Nat → Option Line)
    (m : Mem) :
    ∀ (n fuel rip rbp : Nat) (F : Nat → String) (L : Nat → Line),
      n < fuel →
      (∀ i, i < n → gf (frameChain m rip rbp i).1 = some (F i) ∧
        gl (frameChain m rip rbp i).1 = some (L i) ∧ F i ≠ "main") →
      (gf (frameChain m rip rbp n).1 = none ∨
        gl (frameChain m rip rbp n).1 = none) →
      unwindLoop gf gl m fuel rip rbp = some (Except.error ()) := by
  intro n
  induction n with
  | zero =>
    intro fuel rip rbp F L hfuel _ hnone
    simp only [frameChain] at hnone
    cases fuel with
    | zero => omega
    | succ fl =>
      rcases hnone with h | h
      · simp [unwindLoop, h]
      · cases hgf : gf rip <;> simp [unwindLoop, hgf, h]
  | succ n ihn =>
    intro fuel rip rbp F L hfuel hres hnone
    cases fuel with
    | zero => omega
    | succ fl =>
      obtain ⟨f1, f2, fm⟩ := hres 0 (by omega)
      simp only [frameChain] at f1 f2
      have ih2 := ihn fl (readWord m (rbp + 8)) (readWord m rbp)
        (fun i => F (i + 1)) (fun i => L (i + 1)) (by omega)
        (fun i hi => by
          have h := hres (i + 1) (by omega)
          rwa [frameChain_succ_shift] at h)
        (by rwa [frameChain_succ_shift] at hnone)
      simp [unwindLoop, f1, f2, fm, ih2]

/-- C6: the unwind walks exactly the frame-pointer chain — the saved return
address read at `frame_pointer + 8` (one pointer size above) and the caller
frame pointer read at `frame_pointer` — resolving every address to a
function name and source line through the symbol collaborator, emitting
frames innermost to outermost; it stops with the first frame named `main`,
and surfaces the unwind error when a frame's address resolves to no
function name or no line. -/
theorem unwind_walks_frame_chain (gf : Nat → Option String)
    (gl : Nat → Option Line) (m : Mem) (fuel rip rbp : Nat) :
    (∀ (n : Nat) (F : Nat → String) (L : Nat → Line), n < fuel →
      (∀ i, i ≤ n → gf (frameChain m rip rbp i).1 = some (F i) ∧
        gl (frameChain m rip rbp i).1 = some (L i)) →
      (∀ i, i < n → F i ≠ "main") → F n = "main" →
      unwindLoop gf gl m fuel rip rbp
        = some (Except.ok ((List.range (n + 1)).map (fun i => (F i, L i))))) ∧
    (∀ (n : Nat) (F : Nat → String) (L : Nat → Line), n < fuel →
      (∀ i, i < n → gf (frameChain m rip rbp i).1 = some (F i) ∧
        gl (frameChain m rip rbp i).1 = some (L i) ∧ F i ≠ "main") →
      (gf (frameChain m rip rbp n).1 = none ∨
        gl (frameChain m rip rbp n).1 = none) →
      unwindLoop gf gl m fuel rip rbp = some (Except.error ())) :=
  ⟨fun n F L h1 h2 h3 h4 => unwindLoop_ok gf gl m n fuel rip rbp F L h1 h2 h3 h4,
    fun n F L h1 h2 h3 => unwindLoop_err gf gl m n fuel rip rbp F L h1 h2 h3⟩

/-- C6 witness: a two-frame stack on all-zero memory — the innermost frame
at address 10 resolves to `g`, the return address found at `32 + 8` is 0,
which resolves to `main`; the emitted frames are `g` then `main`. -/
theorem unwind_walks_frame_chain_witness :
    unwindLoop (fun a => if a = 10 then some "g" else some "main")
      (fun _ => some { number := 3 }) memZero 2 10 32
      = some (Except.ok [("g", { number := 3 }), ("main", { number := 3 })]) :=
  (unwind_walks_frame_chain (fun a => if a = 10 then some "g" else some "main")
      (fun _ => some { number := 3 }) memZero 2 10 32).1 1
    (fun i => if i = 0 then "g" else "main") (fun _ => { number := 3 })
    (by omega)
    (fun i hi => by interval_cases i <;> exact ⟨rfl, rfl⟩)
    (fun i hi => by
      interval_cases i
      decide)
    rfl

end Deet
